import Mathlib

/-!
Verification development for the Schwarzschild null-geodesic simulator
(`services/physics.ts`): the deterministic RNG (`mulberry32`), the planar
geodesic integrator (`computeTrajectory`), and the ray-ensemble builder
(`buildRays`), embedded shallowly over the real numbers.

Modelling conventions:
* JavaScript floating-point numbers are idealized as real numbers; the
  definitions are therefore `noncomputable` but structurally identical to
  the source.
* `Number.isFinite` has no counterpart on `ℝ` (every real is finite), so
  the integration loop takes a predicate `isFin : ℝ → Bool` standing for
  the JavaScript finiteness test; `computeTrajectory` instantiates it with
  the constantly-true predicate, which is the real-number semantics of the
  source.  The general parameter is used to analyse the divergence-handling
  paths of the loop.
* The 32-bit integer operations of `mulberry32` (`Math.imul`, `^`, `>>>`,
  `|`) act on bit patterns and are modelled on `ℕ` with explicit
  `% 4294967296`; the additive state update is reduced modulo `2^32`, which
  agrees with the JavaScript float state for every draw sequence the
  application can perform (far below the `2^53` exactness limit).
-/

namespace Schwarzschild

open Classical

noncomputable section

/-- Distribution modes of `buildRays` (`types.ts`). -/
inductive DistributionMode
  | isotropic
  | planar
  | beam

/-- Impact-parameter sampling modes of `buildRays` (`types.ts`). -/
inductive ImpactMode
  | fixed
  | random

/-- A planar trajectory sample: the `Omit<Point3D, 'x'|'y'|'z'>` records
pushed by `computeTrajectory`. -/
structure TrajPoint where
  r : ℝ
  phi : ℝ
  crossed : Bool
  escaped : Bool
  turned : Bool

instance : Inhabited TrajPoint := ⟨⟨0, 0, false, false, false⟩⟩

/-- A fully transformed 3D point (`Point3D` of `types.ts`). -/
structure Point3D where
  r : ℝ
  phi : ℝ
  x : ℝ
  y : ℝ
  z : ℝ
  crossed : Bool
  escaped : Bool
  turned : Bool

/-- The `RayPath` record of `types.ts`, together with the `timeOffset`
property that `buildRays` adds to each ray object. -/
structure RayPath where
  id : String
  b : ℝ
  phi0 : ℝ
  color : String
  points : List Point3D
  crossed : Bool
  escaped : Bool
  turned : Bool
  timeOffset : ℤ

/-- The `TrajectoryOptions` interface: all fields optional, with the
defaults applied by `computeTrajectory` via `??`. -/
structure TrajectoryOptions where
  dLambda : Option ℝ
  maxSteps : Option ℕ
  rStart : Option ℝ
  phi0 : Option ℝ

/-- Return type of `computeTrajectory`: the point list plus final flags. -/
structure TrajectoryResult where
  points : List TrajPoint
  crossed : Bool
  escaped : Bool
  turned : Bool

/-- `getCriticalB` of `physics.ts`. -/
def getCriticalB (mass : ℝ) : ℝ := 3 * Real.sqrt 3 * mass

/-- `getEventHorizonRadius` of `physics.ts`. -/
def getEventHorizonRadius (mass : ℝ) : ℝ := 2.0 * mass

/-- `getPhotonSphereRadius` of `physics.ts`. -/
def getPhotonSphereRadius (mass : ℝ) : ℝ := 3.0 * mass

/-- One draw of the `mulberry32` generator: given the current state, return
the new state and the float in `[0,1)`.  The source returns a closure over
the mutable state `a`; this is the equivalent explicit state-passing form.
`Math.imul` and the bitwise operators act on 32-bit patterns, written here
as natural numbers below `4294967296`. -/
def mulberry32 (a : ℕ) : ℕ × ℝ :=
  let a2 := (a + 0x6d2b79f5) % 4294967296
  let t1 := ((a2 ^^^ (a2 >>> 15)) * (a2 ||| 1)) % 4294967296
  let t2 := a2stepMix t1
  let out := t2 ^^^ (t2 >>> 14)
  (a2, (out : ℝ) / 4294967296)
where
  /-- The line `t ^= t + Math.imul(t ^ (t >>> 7), t | 61)` on bit patterns. -/
  a2stepMix (t1 : ℕ) : ℕ :=
    t1 ^^^ ((t1 + ((t1 ^^^ (t1 >>> 7)) * (t1 ||| 61)) % 4294967296) % 4294967296)

/-- The per-iteration discriminant of the integrator: the source lines
`f = 1 - (2*mass)/r`, `effectivePotentialTerm = (b*b*f)/(r*r)`,
`F = 1 - effectivePotentialTerm`, factored out so that lemmas about the
loop stay readable. -/
def Fdisc (b mass r : ℝ) : ℝ :=
  let f := 1 - (2 * mass) / r
  let effectivePotentialTerm := (b * b * f) / (r * r)
  1 - effectivePotentialTerm

/-- The radial step of the non-turning branch:
`dr = turned ? drMag : -drMag` with `drMag = Math.sqrt(F)`. -/
def drOf (b mass r : ℝ) (turned : Bool) : ℝ :=
  if turned = true then Real.sqrt (Fdisc b mass r) else -Real.sqrt (Fdisc b mass r)

/-- A concrete instantiation of the abstract finiteness predicate used to
exercise the divergence-handling path of the integration loop: values at
most zero count as finite, positive values count as non-finite.  (On `ℝ`
no value of the source's `Number.isFinite` can be falsified, so the
divergence path is analysed for an arbitrary predicate and witnessed with
this one.) -/
def isFinModel (x : ℝ) : Bool := if x ≤ 0 then true else false

/-- The integration loop of `computeTrajectory`, one constructor of `fuel`
per iteration of `for (let i = 0; i < maxSteps; i++)`.  The arguments after
`fuel` are the mutable loop variables `r`, `phi`, `crossed`, `escaped`,
`turned`, `prevDr`.  `isFin` models `Number.isFinite` (see the module
docstring); every other line is a direct transcription of the source. -/
def integrationLoop (isFin : ℝ → Bool) (b mass dLambda rEscape rHorizonLimit : ℝ) :
    ℕ → ℝ → ℝ → Bool → Bool → Bool → ℝ → TrajectoryResult
  | 0, _, _, crossed, escaped, turned, _ => ⟨[], crossed, escaped, turned⟩
  | fuel + 1, r, phi, crossed, escaped, turned, prevDr =>
    if r > rEscape then
      ⟨[⟨r, phi, crossed, true, turned⟩], crossed, true, turned⟩
    else if r < rHorizonLimit then
      ⟨[⟨r, phi, true, escaped, turned⟩], true, escaped, turned⟩
    else
      let F := Fdisc b mass r
      if F < 0 then
        let dr := Real.sqrt (max 0 (-F) + 1e-8)
        let dphi := b / (r * r)
        let rest := integrationLoop isFin b mass dLambda rEscape rHorizonLimit fuel
          (r + dr * dLambda) (phi + dphi * dLambda) crossed escaped true 0
        ⟨⟨r, phi, crossed, escaped, true⟩ :: rest.points, rest.crossed, rest.escaped, rest.turned⟩
      else
        let drMag := Real.sqrt F
        let dr := if turned then drMag else -drMag
        let turned2 := if prevDr < 0 ∧ dr > 0 then true else turned
        let dphi := b / (r * r)
        let r2 := r + dr * dLambda
        let phi2 := phi + dphi * dLambda
        let p : TrajPoint := ⟨r2, phi2, crossed, escaped, turned2⟩
        if isFin r2 = false ∨ isFin phi2 = false then
          ⟨[p], crossed, escaped, turned2⟩
        else
          let rest := integrationLoop isFin b mass dLambda rEscape rHorizonLimit fuel
            r2 phi2 crossed escaped turned2 dr
          ⟨p :: rest.points, rest.crossed, rest.escaped, rest.turned⟩

/-- The post-loop asymptotic-escape heuristic of `computeTrajectory`:
`if (points.length === maxSteps) { const last = …; const prev =
points[Math.max(0, points.length - 20)]; if (last && last.r > 50 &&
last.r > prev.r) escaped = true; }`.  Natural-number subtraction supplies
the `Math.max(0, ·)`; the `last &&` guard is the `none` branch. -/
def escapeHeuristic (points : List TrajPoint) (maxSteps : ℕ) (escaped : Bool) : Bool :=
  if points.length = maxSteps then
    match points.getLast? with
    | some last =>
      let prev := points.getD (points.length - 20) last
      if last.r > 50 ∧ last.r > prev.r then true else escaped
    | none => escaped
  else escaped

/-- `computeTrajectory` with the finiteness test kept abstract: runs the
integration loop from the configured start state, then applies the
max-steps asymptotic-escape heuristic and stamps the final flags uniformly
onto every point, exactly as the source does after its loop. -/
def computeTrajectoryFin (isFin : ℝ → Bool) (b mass : ℝ) (opts : TrajectoryOptions) :
    TrajectoryResult :=
  let dLambda := opts.dLambda.getD 0.05
  let maxSteps := opts.maxSteps.getD 6000
  let rStart := opts.rStart.getD 100
  let phi0 := opts.phi0.getD 0
  let rEscape : ℝ := 150
  let rHorizonLimit := 2.01 * mass
  let L := integrationLoop isFin b mass dLambda rEscape rHorizonLimit maxSteps
    rStart phi0 false false false (-1)
  let escapedFinal := escapeHeuristic L.points maxSteps L.escaped
  ⟨L.points.map fun p => ⟨p.r, p.phi, L.crossed, escapedFinal, L.turned⟩,
    L.crossed, escapedFinal, L.turned⟩

/-- `computeTrajectory` of `physics.ts`: on real numbers every value is
finite, so the finiteness test is constantly true. -/
def computeTrajectory (b mass : ℝ) (opts : TrajectoryOptions) : TrajectoryResult :=
  computeTrajectoryFin (fun _ => true) b mass opts

/-- The orientation angles drawn at the top of the `buildRays` loop body:
`(theta, phi_sphere, psi)` plus the RNG state after the draws. -/
structure OrientationSample where
  theta : ℝ
  phiSphere : ℝ
  psi : ℝ
  rng : ℕ

/-- The impact parameter used for one ray, plus the RNG state after the
draw (no draw in `fixed` mode). -/
structure ImpactSample where
  currentB : ℝ
  rng : ℕ

/-- The orientation block of the `buildRays` loop body.  In `beam` mode
`psi = (i / Math.max(1, count)) * Math.PI * 2` is assigned without touching
the RNG. -/
def sampleOrientation (distMode : DistributionMode) (i count : ℕ) (st : ℕ) :
    OrientationSample :=
  match distMode with
  | .isotropic =>
    let d1 := mulberry32 st
    let d2 := mulberry32 d1.1
    let d3 := mulberry32 d2.1
    ⟨Real.arccos (2 * d1.2 - 1), d2.2 * Real.pi * 2, d3.2 * Real.pi * 2, d3.1⟩
  | .planar =>
    let d1 := mulberry32 st
    ⟨Real.pi / 2, d1.2 * Real.pi * 2, 0, d1.1⟩
  | .beam =>
    ⟨0, 0, ((i : ℝ) / ((max 1 count : ℕ) : ℝ)) * Real.pi * 2, st⟩

/-- The impact-parameter block of the `buildRays` loop body. -/
def sampleImpact (impactMode : ImpactMode) (b mass : ℝ) (st : ℕ) : ImpactSample :=
  match impactMode with
  | .fixed => ⟨b, st⟩
  | .random =>
    let minB := 2.5 * mass
    let maxB := 7.5 * mass
    let d := mulberry32 st
    ⟨minB + d.2 * (maxB - minB), d.1⟩

/-- The local-plane to global 3D transform applied to each trajectory
point inside `buildRays`: spin by `psi` about X, tilt by `theta - π/2`
about Y, rotate by `phi_sphere` about Z. -/
def toPoint3D (theta phiSphere psi : ℝ) (p : TrajPoint) : Point3D :=
  let lx := p.r * Real.cos p.phi
  let ly := p.r * Real.sin p.phi
  let lz : ℝ := 0
  let x1 := lx
  let y1 := ly * Real.cos psi - lz * Real.sin psi
  let z1 := ly * Real.sin psi + lz * Real.cos psi
  let beta := theta - Real.pi / 2
  let cb := Real.cos beta
  let sb := Real.sin beta
  let x2 := x1 * cb + z1 * sb
  let z2 := -x1 * sb + z1 * cb
  let y2 := y1
  let cp := Real.cos phiSphere
  let sp := Real.sin phiSphere
  ⟨p.r, p.phi, x2 * cp - y2 * sp, x2 * sp + y2 * cp, z2, p.crossed, p.escaped, p.turned⟩

/-- One iteration of the `buildRays` loop: orientation draws, impact
parameter, trajectory, color classification, 3D transform, time offset.
Returns the assembled `RayPath` and the RNG state for the next iteration. -/
def buildRay (b mass bCrit : ℝ) (seed : ℕ) (distMode : DistributionMode)
    (impactMode : ImpactMode) (count i : ℕ) (st : ℕ) : RayPath × ℕ :=
  let o := sampleOrientation distMode i count st
  let s := sampleImpact impactMode b mass o.rng
  let currentB := s.currentB
  let res := computeTrajectory currentB mass ⟨some 0.05, some 6000, some 100, some 0⟩
  let color :=
    if res.crossed = true then "#ff3333"
    else if currentB < 1.25 * bCrit then "#4488ff"
    else "#eab308"
  let points3D := res.points.map (toPoint3D o.theta o.phiSphere o.psi)
  let d := mulberry32 s.rng
  (⟨toString seed ++ "-" ++ toString i, currentB, 0, color, points3D,
    res.crossed, res.escaped, res.turned, Int.floor (d.2 * 400)⟩, d.1)

/-- The `for (let i = 0; i < count; i++)` loop of `buildRays`, with `fuel`
many iterations remaining and `i` the current index. -/
def buildRaysAux (b mass bCrit : ℝ) (seed : ℕ) (distMode : DistributionMode)
    (impactMode : ImpactMode) (count : ℕ) : ℕ → ℕ → ℕ → List RayPath
  | _, 0, _ => []
  | i, fuel + 1, st =>
    (buildRay b mass bCrit seed distMode impactMode count i st).1 ::
      buildRaysAux b mass bCrit seed distMode impactMode count (i + 1) fuel
        (buildRay b mass bCrit seed distMode impactMode count i st).2

/-- `buildRays` of `physics.ts`: seeds the RNG with `seed`, computes
`bCrit = 3 * Math.sqrt(3) * mass`, and runs the per-ray loop. -/
def buildRays (b mass : ℝ) (count seed : ℕ) (distMode : DistributionMode)
    (impactMode : ImpactMode) : List RayPath :=
  buildRaysAux b mass (3 * Real.sqrt 3 * mass) seed distMode impactMode count 0 count seed

/-! ### Generic helper lemmas -/

/-- The `buildRays` loop produces exactly one ray per remaining iteration. -/
lemma buildRaysAux_length (b mass bCrit : ℝ) (seed : ℕ) (dm : DistributionMode)
    (im : ImpactMode) (count : ℕ) :
    ∀ (fuel i st : ℕ), (buildRaysAux b mass bCrit seed dm im count i fuel st).length = fuel := by
  intro fuel
  induction fuel with
  | zero => intro i st; rfl
  | succ n ih => intro i st; simpa [buildRaysAux] using ih (i + 1) _

/-- Pointwise properties of `buildRay` lift to the whole `buildRays` loop. -/
lemma buildRaysAux_forall (P : RayPath → Prop) (b mass bCrit : ℝ) (seed : ℕ)
    (dm : DistributionMode) (im : ImpactMode) (count : ℕ)
    (h : ∀ i st, P (buildRay b mass bCrit seed dm im count i st).1) :
    ∀ (fuel i st : ℕ), (buildRaysAux b mass bCrit seed dm im count i fuel st).Forall P := by
  intro fuel
  induction fuel with
  | zero => intro i st; trivial
  | succ n ih =>
    intro i st
    simp only [buildRaysAux]
    exact (List.forall_cons _ _ _).mpr ⟨h i st, ih (i + 1) _⟩

/-! ### C1 -/

/-- C1: for every fixed tuple `(b, M, N, seed, distributionMode, impactMode)`
with `b > 0`, `M > 0`, `N ≥ 1`, two calls to `buildRays` with the same
arguments return identical ensembles: for every ray index the id, impact
parameter, color, outcome flags, time offset and the whole transformed point
sequence agree between the two calls.  In the shallow embedding `buildRays`
is a pure function of its arguments, so the two calls are definitionally
equal. -/
theorem buildRays_deterministic (b mass : ℝ) (count seed : ℕ)
    (dm : DistributionMode) (im : ImpactMode)
    (_hb : 0 < b) (_hM : 0 < mass) (_hN : 1 ≤ count) :
    buildRays b mass count seed dm im = buildRays b mass count seed dm im ∧
    ∀ i : ℕ,
      ((buildRays b mass count seed dm im).get? i).map RayPath.id
        = ((buildRays b mass count seed dm im).get? i).map RayPath.id ∧
      ((buildRays b mass count seed dm im).get? i).map RayPath.b
        = ((buildRays b mass count seed dm im).get? i).map RayPath.b ∧
      ((buildRays b mass count seed dm im).get? i).map RayPath.color
        = ((buildRays b mass count seed dm im).get? i).map RayPath.color ∧
      ((buildRays b mass count seed dm im).get? i).map RayPath.crossed
        = ((buildRays b mass count seed dm im).get? i).map RayPath.crossed ∧
      ((buildRays b mass count seed dm im).get? i).map RayPath.escaped
        = ((buildRays b mass count seed dm im).get? i).map RayPath.escaped ∧
      ((buildRays b mass count seed dm im).get? i).map RayPath.turned
        = ((buildRays b mass count seed dm im).get? i).map RayPath.turned ∧
      ((buildRays b mass count seed dm im).get? i).map RayPath.timeOffset
        = ((buildRays b mass count seed dm im).get? i).map RayPath.timeOffset ∧
      ((buildRays b mass count seed dm im).get? i).map RayPath.points
        = ((buildRays b mass count seed dm im).get? i).map RayPath.points :=
  ⟨rfl, fun _ => ⟨rfl, rfl, rfl, rfl, rfl, rfl, rfl, rfl⟩⟩

/-- Witness for C1 at the configuration named by the spec:
`mass 1, impactParameter 4, rayCount 50, seed 42, isotropic, fixed`. -/
theorem buildRays_deterministic_witness :
    buildRays 4 1 50 42 DistributionMode.isotropic ImpactMode.fixed
      = buildRays 4 1 50 42 DistributionMode.isotropic ImpactMode.fixed :=
  (buildRays_deterministic 4 1 50 42 DistributionMode.isotropic ImpactMode.fixed
    (by norm_num) (by norm_num) (by norm_num)).1

/-! ### C3 -/

/-- C3 (counterexample): `buildRays` does not reject invalid configurations.
With the non-positive mass `-1` (and a ray count of 2) it still returns an
ensemble of 2 rays, contradicting the claim that no rays are returned for
such inputs. -/
theorem buildRays_accepts_invalid_mass :
    ¬((-1 : ℝ) > 0) ∧
      (buildRays 4 (-1) 2 0 DistributionMode.planar ImpactMode.fixed).length = 2 :=
  ⟨by norm_num, buildRaysAux_length 4 (-1) (3 * Real.sqrt 3 * (-1)) 0
    DistributionMode.planar ImpactMode.fixed 2 2 0 0⟩

/-- C3 (amended): `buildRays` performs no input validation at all.  For
every configuration — including non-positive mass or impact parameter and
ray counts outside `[1, 1000]` — it returns an ensemble with exactly `count`
rays (empty only when `count = 0`); the range restrictions live solely in
the UI layer. -/
theorem buildRays_no_validation (b mass : ℝ) (count seed : ℕ)
    (dm : DistributionMode) (im : ImpactMode) :
    (buildRays b mass count seed dm im).length = count :=
  buildRaysAux_length b mass (3 * Real.sqrt 3 * mass) seed dm im count count 0 seed

/-! ### C9 -/

/-- C9: in beam mode `buildRays` assigns ray `i` the plane-spin angle
`psi = (i / max 1 N) · 2π` deterministically — the RNG state is returned
unchanged — with `theta = 0` and `phi_sphere = 0`; consecutive `psi` values
are spaced `2π / max 1 N` apart, and for `1 ≤ N` and `i < N` the value lies
in `[0, 2π)`. -/
theorem beam_mode_psi_even_spacing (i count st : ℕ) :
    (sampleOrientation DistributionMode.beam i count st).theta = 0 ∧
    (sampleOrientation DistributionMode.beam i count st).phiSphere = 0 ∧
    (sampleOrientation DistributionMode.beam i count st).rng = st ∧
    (sampleOrientation DistributionMode.beam i count st).psi
      = (i : ℝ) / ((max 1 count : ℕ) : ℝ) * (2 * Real.pi) ∧
    (sampleOrientation DistributionMode.beam (i + 1) count st).psi
        - (sampleOrientation DistributionMode.beam i count st).psi
      = 2 * Real.pi / ((max 1 count : ℕ) : ℝ) ∧
    (1 ≤ count → i < count →
      0 ≤ (sampleOrientation DistributionMode.beam i count st).psi ∧
      (sampleOrientation DistributionMode.beam i count st).psi < 2 * Real.pi) := by
  have hNpos : (0 : ℝ) < ((max 1 count : ℕ) : ℝ) := by
    have : 1 ≤ max 1 count := le_max_left 1 count
    exact_mod_cast Nat.lt_of_lt_of_le Nat.zero_lt_one this
  refine ⟨rfl, rfl, rfl, by simp [sampleOrientation]; ring, ?_, ?_⟩
  · simp only [sampleOrientation]
    field_simp
    ring
  · intro hcount hi
    have hmax : max 1 count = count := max_eq_right hcount
    have hpsi : (sampleOrientation DistributionMode.beam i count st).psi
        = (i : ℝ) / ((max 1 count : ℕ) : ℝ) * (2 * Real.pi) := by
      simp only [sampleOrientation]
      ring
    rw [hpsi]
    constructor
    · positivity
    · have hlt : (i : ℝ) / ((max 1 count : ℕ) : ℝ) < 1 := by
        rw [div_lt_one hNpos, hmax]
        exact_mod_cast hi
      have h2 : (0 : ℝ) < 2 * Real.pi := by positivity
      have := mul_lt_mul_of_pos_right hlt h2
      simpa using this

/-- Witness for C9 at `i = 2`, `N = 8`: `psi = π/2`, within `[0, 2π)`,
spacing `π/4`. -/
theorem beam_mode_psi_even_spacing_witness :
    (sampleOrientation DistributionMode.beam 2 8 7).theta = 0 ∧
    (sampleOrientation DistributionMode.beam 2 8 7).phiSphere = 0 ∧
    (sampleOrientation DistributionMode.beam 2 8 7).rng = 7 ∧
    (sampleOrientation DistributionMode.beam 2 8 7).psi
      = (2 : ℝ) / ((max 1 8 : ℕ) : ℝ) * (2 * Real.pi) ∧
    (sampleOrientation DistributionMode.beam 3 8 7).psi
        - (sampleOrientation DistributionMode.beam 2 8 7).psi
      = 2 * Real.pi / ((max 1 8 : ℕ) : ℝ) ∧
    (1 ≤ 8 → 2 < 8 →
      0 ≤ (sampleOrientation DistributionMode.beam 2 8 7).psi ∧
      (sampleOrientation DistributionMode.beam 2 8 7).psi < 2 * Real.pi) :=
  beam_mode_psi_even_spacing 2 8 7

/-! ### C2 -/

/-- The color assigned by one iteration of the `buildRays` loop is the total
classification of `(crossed, currentB)` described in the specification. -/
lemma buildRay_color (b mass bCrit : ℝ) (seed : ℕ) (dm : DistributionMode)
    (im : ImpactMode) (count i st : ℕ) :
    ((buildRay b mass bCrit seed dm im count i st).1.crossed = true ∧
      (buildRay b mass bCrit seed dm im count i st).1.color = "#ff3333") ∨
    ((buildRay b mass bCrit seed dm im count i st).1.crossed = false ∧
      (buildRay b mass bCrit seed dm im count i st).1.b < 1.25 * bCrit ∧
      (buildRay b mass bCrit seed dm im count i st).1.color = "#4488ff") ∨
    ((buildRay b mass bCrit seed dm im count i st).1.crossed = false ∧
      ¬((buildRay b mass bCrit seed dm im count i st).1.b < 1.25 * bCrit) ∧
      (buildRay b mass bCrit seed dm im count i st).1.color = "#eab308") := by
  by_cases hc :
      (computeTrajectory (sampleImpact im b mass (sampleOrientation dm i count st).rng).currentB
        mass ⟨some 0.05, some 6000, some 100, some 0⟩).crossed = true
  · left
    constructor
    · simpa [buildRay] using hc
    · simp [buildRay, hc]
  · have hc2 :
        (computeTrajectory (sampleImpact im b mass (sampleOrientation dm i count st).rng).currentB
          mass ⟨some 0.05, some 6000, some 100, some 0⟩).crossed = false :=
      Bool.not_eq_true _ ▸ Bool.eq_false_iff.mpr (by simpa using hc)
    by_cases hb2 :
        (sampleImpact im b mass (sampleOrientation dm i count st).rng).currentB < 1.25 * bCrit
    · right; left
      refine ⟨by simpa [buildRay] using hc2, by simpa [buildRay] using hb2, ?_⟩
      simp [buildRay, hc, hb2]
    · right; right
      refine ⟨by simpa [buildRay] using hc2, by simpa [buildRay] using hb2, ?_⟩
      simp [buildRay, hc, hb2]

/-- C2: every ray of every built ensemble is classified by the total fate
function: `crossed = true` rays are trapped (`"#ff3333"`) irrespective of
their impact parameter; otherwise rays with `currentB < 1.25 · 3√3·M` are
lensed (`"#4488ff"`); all remaining rays are unaffected (`"#eab308"`),
never lensed. -/
theorem buildRays_fate_classification (b mass : ℝ) (count seed : ℕ)
    (dm : DistributionMode) (im : ImpactMode) :
    (buildRays b mass count seed dm im).Forall fun ray =>
      (ray.crossed = true ∧ ray.color = "#ff3333") ∨
      (ray.crossed = false ∧ ray.b < 1.25 * getCriticalB mass ∧ ray.color = "#4488ff") ∨
      (ray.crossed = false ∧ ¬(ray.b < 1.25 * getCriticalB mass) ∧ ray.color = "#eab308") := by
  apply buildRaysAux_forall
  intro i st
  exact buildRay_color b mass (3 * Real.sqrt 3 * mass) seed dm im count i st

/-! ### Loop structure lemmas -/

/-- Each loop iteration appends exactly one point, so a run with `fuel`
iterations available produces at most `fuel` points. -/
lemma integrationLoop_length_le (isFin : ℝ → Bool) (b mass dl rE hl : ℝ) :
    ∀ (fuel : ℕ) (r phi : ℝ) (c e t : Bool) (pd : ℝ),
      (integrationLoop isFin b mass dl rE hl fuel r phi c e t pd).points.length ≤ fuel := by
  intro fuel
  induction fuel with
  | zero => intro r phi c e t pd; simp [integrationLoop]
  | succ n ih =>
    intro r phi c e t pd
    simp only [integrationLoop]
    repeat' split
    all_goals first
      | (simp
         done)
      | (simp only [List.length_cons]
         exact Nat.succ_le_succ (ih _ _ _ _ _ _))

/-- Every branch of a loop iteration pushes a point, so any run with at
least one iteration of fuel returns at least one point. -/
lemma integrationLoop_length_pos (isFin : ℝ → Bool) (b mass dl rE hl : ℝ)
    (fuel : ℕ) (r phi : ℝ) (c e t : Bool) (pd : ℝ) :
    1 ≤ (integrationLoop isFin b mass dl rE hl (fuel + 1) r phi c e t pd).points.length := by
  simp only [integrationLoop]
  repeat' split
  all_goals simp

/-- The result of `computeTrajectoryFin` has as many points as its loop run. -/
lemma computeTrajectoryFin_length (isFin : ℝ → Bool) (b mass : ℝ) (opts : TrajectoryOptions) :
    (computeTrajectoryFin isFin b mass opts).points.length
      = (integrationLoop isFin b mass (opts.dLambda.getD 0.05) 150 (2.01 * mass)
          (opts.maxSteps.getD 6000) (opts.rStart.getD 100) (opts.phi0.getD 0)
          false false false (-1)).points.length := by
  simp [computeTrajectoryFin]

/-! ### C10 -/

/-- C10: the integration loop always terminates after at most `maxSteps`
iterations, each appending exactly one point: for `maxSteps ≥ 1` the
returned trajectory has between 1 and `maxSteps` points, and consequently
every ray built by `buildRays` (which always passes `maxSteps = 6000`) has
between 1 and 6000 points. -/
theorem computeTrajectory_length_bounds (b mass : ℝ) (opts : TrajectoryOptions)
    (b2 mass2 : ℝ) (count seed : ℕ) (dm : DistributionMode) (im : ImpactMode)
    (h : 1 ≤ opts.maxSteps.getD 6000) :
    (1 ≤ (computeTrajectory b mass opts).points.length ∧
      (computeTrajectory b mass opts).points.length ≤ opts.maxSteps.getD 6000) ∧
    (buildRays b2 mass2 count seed dm im).Forall fun ray =>
      1 ≤ ray.points.length ∧ ray.points.length ≤ 6000 := by
  constructor
  · rw [computeTrajectory, computeTrajectoryFin_length]
    obtain ⟨n, hn⟩ := Nat.exists_eq_add_of_le h
    constructor
    · rw [hn]
      rw [Nat.add_comm]
      exact integrationLoop_length_pos _ _ _ _ _ _ _ _ _ _ _ _ _
    · exact integrationLoop_length_le _ _ _ _ _ _ _ _ _ _ _ _ _
  · apply buildRaysAux_forall
    intro i st
    have hlen :
        ((buildRay b2 mass2 (3 * Real.sqrt 3 * mass2) seed dm im count i st).1).points.length
          = (computeTrajectory
              (sampleImpact im b2 mass2 (sampleOrientation dm i count st).rng).currentB mass2
              ⟨some 0.05, some 6000, some 100, some 0⟩).points.length := by
      simp [buildRay]
    rw [hlen, computeTrajectory, computeTrajectoryFin_length]
    constructor
    · exact integrationLoop_length_pos _ _ _ _ _ _ 5999 _ _ _ _ _ _
    · exact integrationLoop_length_le _ _ _ _ _ _ _ _ _ _ _ _ _

/-- Witness for C10: a configuration with `maxSteps = 5` and a small beam
ensemble. -/
theorem computeTrajectory_length_bounds_witness :
    ((1 ≤ (computeTrajectory 4 1 ⟨some 0.05, some 5, some 100, some 0⟩).points.length ∧
      (computeTrajectory 4 1 ⟨some 0.05, some 5, some 100, some 0⟩).points.length
        ≤ (TrajectoryOptions.mk (some 0.05) (some 5) (some 100) (some 0)).maxSteps.getD 6000) ∧
    (buildRays 4 1 3 42 DistributionMode.beam ImpactMode.fixed).Forall fun ray =>
      1 ≤ ray.points.length ∧ ray.points.length ≤ 6000) :=
  computeTrajectory_length_bounds 4 1 ⟨some 0.05, some 5, some 100, some 0⟩
    4 1 3 42 DistributionMode.beam ImpactMode.fixed (by norm_num)

/-! ### C6 -/

/-- Mapping the uniform stamp over a point list yields points that all carry
exactly the stamped flags. -/
lemma stamped_map_forall (l : List TrajPoint) (c e t : Bool) :
    (l.map fun p => (⟨p.r, p.phi, c, e, t⟩ : TrajPoint)).Forall fun p =>
      p.crossed = c ∧ p.escaped = e ∧ p.turned = t := by
  induction l with
  | nil => trivial
  | cons x xs ih => exact (List.forall_cons _ _ _).mpr ⟨⟨rfl, rfl, rfl⟩, ih⟩

/-- `List.Forall` over a mapped list. -/
lemma list_forall_map {α β : Type} (f : α → β) (P : β → Prop) :
    ∀ l : List α, (l.map f).Forall P ↔ l.Forall fun a => P (f a) := by
  intro l
  induction l with
  | nil => simp
  | cons x xs ih => simp [List.forall_cons, ih]

/-- Every point of a finished trajectory carries the trajectory-level final
flags: the source stamps them uniformly after the loop. -/
lemma computeTrajectoryFin_flags_stamped (isFin : ℝ → Bool) (b mass : ℝ)
    (opts : TrajectoryOptions) :
    (computeTrajectoryFin isFin b mass opts).points.Forall fun p =>
      p.crossed = (computeTrajectoryFin isFin b mass opts).crossed ∧
      p.escaped = (computeTrajectoryFin isFin b mass opts).escaped ∧
      p.turned = (computeTrajectoryFin isFin b mass opts).turned := by
  simp only [computeTrajectoryFin]
  exact stamped_map_forall _ _ _ _

/-- C6: all points of a trajectory returned by `computeTrajectory` carry
identical `crossed`/`escaped`/`turned` values, equal to the trajectory-level
final flags, and likewise every point of every ray in a built ensemble
carries exactly its ray's outcome flags — no point exposes a provisional
fate. -/
theorem trajectory_flags_uniform (b mass : ℝ) (opts : TrajectoryOptions)
    (b2 mass2 : ℝ) (count seed : ℕ) (dm : DistributionMode) (im : ImpactMode) :
    ((computeTrajectory b mass opts).points.Forall fun p =>
      p.crossed = (computeTrajectory b mass opts).crossed ∧
      p.escaped = (computeTrajectory b mass opts).escaped ∧
      p.turned = (computeTrajectory b mass opts).turned) ∧
    (buildRays b2 mass2 count seed dm im).Forall fun ray =>
      ray.points.Forall fun p =>
        p.crossed = ray.crossed ∧ p.escaped = ray.escaped ∧ p.turned = ray.turned := by
  constructor
  · exact computeTrajectoryFin_flags_stamped _ b mass opts
  · apply buildRaysAux_forall
    intro i st
    have h := computeTrajectoryFin_flags_stamped (fun _ => true)
      (sampleImpact im b2 mass2 (sampleOrientation dm i count st).rng).currentB mass2
      ⟨some 0.05, some 6000, some 100, some 0⟩
    simp only [buildRay]
    rw [list_forall_map]
    exact h.imp fun p hp => ⟨hp.1, hp.2.1, hp.2.2⟩

/-! ### Branch equations for the integration loop -/

section LoopEquations

variable (isFin : ℝ → Bool) (b mass dl rE hl : ℝ) (fuel : ℕ) (r phi : ℝ)
variable (c e t : Bool) (pd : ℝ)

/-- Out of fuel: the loop returns the accumulated state with no points. -/
lemma loop_zero_eq :
    integrationLoop isFin b mass dl rE hl 0 r phi c e t pd = ⟨[], c, e, t⟩ := rfl

/-- Escape break: `r > rEscape`. -/
lemma loop_escape_eq (h : r > rE) :
    integrationLoop isFin b mass dl rE hl (fuel + 1) r phi c e t pd
      = ⟨[⟨r, phi, c, true, t⟩], c, true, t⟩ := by
  simp only [integrationLoop]
  rw [if_pos h]

/-- Capture break: `r < rHorizonLimit`. -/
lemma loop_cross_eq (h1 : ¬r > rE) (h2 : r < hl) :
    integrationLoop isFin b mass dl rE hl (fuel + 1) r phi c e t pd
      = ⟨[⟨r, phi, true, e, t⟩], true, e, t⟩ := by
  simp only [integrationLoop]
  rw [if_neg h1, if_pos h2]

/-- Turning-point branch: `F < 0`.  The current point is pushed before the
regularized outward step. -/
lemma loop_turn_eq (h1 : ¬r > rE) (h2 : ¬r < hl) (h3 : Fdisc b mass r < 0) :
    integrationLoop isFin b mass dl rE hl (fuel + 1) r phi c e t pd
      = ⟨⟨r, phi, c, e, true⟩ ::
          (integrationLoop isFin b mass dl rE hl fuel
            (r + Real.sqrt (max 0 (-Fdisc b mass r) + 1e-8) * dl)
            (phi + b / (r * r) * dl) c e true 0).points,
        (integrationLoop isFin b mass dl rE hl fuel
          (r + Real.sqrt (max 0 (-Fdisc b mass r) + 1e-8) * dl)
          (phi + b / (r * r) * dl) c e true 0).crossed,
        (integrationLoop isFin b mass dl rE hl fuel
          (r + Real.sqrt (max 0 (-Fdisc b mass r) + 1e-8) * dl)
          (phi + b / (r * r) * dl) c e true 0).escaped,
        (integrationLoop isFin b mass dl rE hl fuel
          (r + Real.sqrt (max 0 (-Fdisc b mass r) + 1e-8) * dl)
          (phi + b / (r * r) * dl) c e true 0).turned⟩ := by
  simp only [integrationLoop]
  rw [if_neg h1, if_neg h2, if_pos h3]

/-- In the non-turning branch the secondary sign-flip check never changes
`turned`: an outgoing step (`dr > 0`) already requires `turned = true`. -/
lemma loop_turned2_eq :
    (if pd < 0 ∧ drOf b mass r t > 0 then true else t) = t := by
  cases t with
  | false =>
    rw [if_neg]
    rintro ⟨-, hdr⟩
    rw [drOf] at hdr
    simp only [Bool.false_eq_true, if_false] at hdr
    exact absurd (Real.sqrt_nonneg (Fdisc b mass r)) (by linarith)
  | true => simp

/-- Non-turning branch ending in the non-finiteness break: the freshly
updated point is pushed and the loop stops with the flags unchanged. -/
lemma loop_normBreak_eq (h1 : ¬r > rE) (h2 : ¬r < hl) (h3 : ¬Fdisc b mass r < 0)
    (h4 : isFin (r + drOf b mass r t * dl) = false ∨ isFin (phi + b / (r * r) * dl) = false) :
    integrationLoop isFin b mass dl rE hl (fuel + 1) r phi c e t pd
      = ⟨[⟨r + drOf b mass r t * dl, phi + b / (r * r) * dl, c, e, t⟩], c, e, t⟩ := by
  simp only [integrationLoop]
  rw [if_neg h1, if_neg h2, if_neg h3]
  have hdr : (if t = true then Real.sqrt (Fdisc b mass r) else -Real.sqrt (Fdisc b mass r))
      = drOf b mass r t := rfl
  rw [hdr, loop_turned2_eq b mass r t pd, if_pos h4]

/-- Non-turning branch that continues: the freshly updated point is pushed
and the loop recurses from the updated state with `prevDr = dr`. -/
lemma loop_normCons_eq (h1 : ¬r > rE) (h2 : ¬r < hl) (h3 : ¬Fdisc b mass r < 0)
    (h4 : ¬(isFin (r + drOf b mass r t * dl) = false
          ∨ isFin (phi + b / (r * r) * dl) = false)) :
    integrationLoop isFin b mass dl rE hl (fuel + 1) r phi c e t pd
      = ⟨⟨r + drOf b mass r t * dl, phi + b / (r * r) * dl, c, e, t⟩ ::
          (integrationLoop isFin b mass dl rE hl fuel (r + drOf b mass r t * dl)
            (phi + b / (r * r) * dl) c e t (drOf b mass r t)).points,
        (integrationLoop isFin b mass dl rE hl fuel (r + drOf b mass r t * dl)
          (phi + b / (r * r) * dl) c e t (drOf b mass r t)).crossed,
        (integrationLoop isFin b mass dl rE hl fuel (r + drOf b mass r t * dl)
          (phi + b / (r * r) * dl) c e t (drOf b mass r t)).escaped,
        (integrationLoop isFin b mass dl rE hl fuel (r + drOf b mass r t * dl)
          (phi + b / (r * r) * dl) c e t (drOf b mass r t)).turned⟩ := by
  simp only [integrationLoop]
  rw [if_neg h1, if_neg h2, if_neg h3]
  have hdr : (if t = true then Real.sqrt (Fdisc b mass r) else -Real.sqrt (Fdisc b mass r))
      = drOf b mass r t := rfl
  rw [hdr, loop_turned2_eq b mass r t pd, if_neg h4]

end LoopEquations

/-! ### Invariants of crossed runs -/

/-- A loop run that reports a horizon crossing has pushed at least one
point. -/
lemma loop_crossed_ne_nil {isFin : ℝ → Bool} {b mass dl rE hl : ℝ} :
    ∀ {fuel : ℕ} {r phi : ℝ} {t : Bool} {pd : ℝ},
      (integrationLoop isFin b mass dl rE hl fuel r phi false false t pd).crossed = true →
      (integrationLoop isFin b mass dl rE hl fuel r phi false false t pd).points ≠ [] := by
  intro fuel r phi t pd h
  cases fuel with
  | zero => rw [loop_zero_eq] at h; simp at h
  | succ n =>
    by_cases h1 : r > rE
    · rw [loop_escape_eq _ _ _ _ _ _ _ _ _ _ _ _ _ h1] at h
      simp at h
    · by_cases h2 : r < hl
      · rw [loop_cross_eq _ _ _ _ _ _ _ _ _ _ _ _ _ h1 h2]
        simp
      · by_cases h3 : Fdisc b mass r < 0
        · rw [loop_turn_eq _ _ _ _ _ _ _ _ _ _ _ _ _ h1 h2 h3]
          simp
        · by_cases h4 : isFin (r + drOf b mass r t * dl) = false
              ∨ isFin (phi + b / (r * r) * dl) = false
          · rw [loop_normBreak_eq _ _ _ _ _ _ _ _ _ _ _ _ _ h1 h2 h3 h4] at h
            simp at h
          · rw [loop_normCons_eq _ _ _ _ _ _ _ _ _ _ _ _ _ h1 h2 h3 h4]
            simp

/-- A loop run started with both flags clear never reports both a crossing
and an escape: each flag is only ever set by a break that ends the run. -/
lemma loop_not_both {isFin : ℝ → Bool} {b mass dl rE hl : ℝ} :
    ∀ {fuel : ℕ} {r phi : ℝ} {t : Bool} {pd : ℝ},
      (integrationLoop isFin b mass dl rE hl fuel r phi false false t pd).crossed = true →
      (integrationLoop isFin b mass dl rE hl fuel r phi false false t pd).escaped = false := by
  intro fuel
  induction fuel with
  | zero => intro r phi t pd h; rw [loop_zero_eq] at h; simp at h
  | succ n ih =>
    intro r phi t pd h
    by_cases h1 : r > rE
    · rw [loop_escape_eq _ _ _ _ _ _ _ _ _ _ _ _ _ h1] at h
      simp at h
    · by_cases h2 : r < hl
      · rw [loop_cross_eq _ _ _ _ _ _ _ _ _ _ _ _ _ h1 h2]
      · by_cases h3 : Fdisc b mass r < 0
        · rw [loop_turn_eq _ _ _ _ _ _ _ _ _ _ _ _ _ h1 h2 h3] at h ⊢
          exact ih h
        · by_cases h4 : isFin (r + drOf b mass r t * dl) = false
              ∨ isFin (phi + b / (r * r) * dl) = false
          · rw [loop_normBreak_eq _ _ _ _ _ _ _ _ _ _ _ _ _ h1 h2 h3 h4] at h
            simp at h
          · rw [loop_normCons_eq _ _ _ _ _ _ _ _ _ _ _ _ _ h1 h2 h3 h4] at h ⊢
            exact ih h

/-- In a crossed run the final pushed point is the point that triggered the
horizon break, so its radius lies below `rHorizonLimit`. -/
lemma loop_crossed_last {isFin : ℝ → Bool} {b mass dl rE hl : ℝ} :
    ∀ {fuel : ℕ} {r phi : ℝ} {t : Bool} {pd : ℝ},
      (integrationLoop isFin b mass dl rE hl fuel r phi false false t pd).crossed = true →
      ∃ p, (integrationLoop isFin b mass dl rE hl fuel r phi false false t pd).points.getLast?
            = some p ∧ p.r < hl := by
  intro fuel
  induction fuel with
  | zero => intro r phi t pd h; rw [loop_zero_eq] at h; simp at h
  | succ n ih =>
    intro r phi t pd h
    by_cases h1 : r > rE
    · rw [loop_escape_eq _ _ _ _ _ _ _ _ _ _ _ _ _ h1] at h
      simp at h
    · by_cases h2 : r < hl
      · rw [loop_cross_eq _ _ _ _ _ _ _ _ _ _ _ _ _ h1 h2]
        exact ⟨⟨r, phi, true, false, t⟩, rfl, h2⟩
      · by_cases h3 : Fdisc b mass r < 0
        · rw [loop_turn_eq _ _ _ _ _ _ _ _ _ _ _ _ _ h1 h2 h3] at h ⊢
          obtain ⟨p, hp, hpr⟩ := ih h
          refine ⟨p, ?_, hpr⟩
          have hne : (integrationLoop isFin b mass dl rE hl n
              (r + Real.sqrt (max 0 (-Fdisc b mass r) + 1e-8) * dl)
              (phi + b / (r * r) * dl) false false true 0).points ≠ [] := by
            intro hnil
            rw [hnil] at hp
            simp at hp
          obtain ⟨y, ys, hys⟩ := List.exists_cons_of_ne_nil hne
          show (⟨r, phi, false, false, true⟩ :: (integrationLoop isFin b mass dl rE hl n
              (r + Real.sqrt (max 0 (-Fdisc b mass r) + 1e-8) * dl)
              (phi + b / (r * r) * dl) false false true 0).points).getLast? = some p
          rw [hys, List.getLast?_cons_cons, ← hys]
          exact hp
        · by_cases h4 : isFin (r + drOf b mass r t * dl) = false
              ∨ isFin (phi + b / (r * r) * dl) = false
          · rw [loop_normBreak_eq _ _ _ _ _ _ _ _ _ _ _ _ _ h1 h2 h3 h4] at h
            simp at h
          · rw [loop_normCons_eq _ _ _ _ _ _ _ _ _ _ _ _ _ h1 h2 h3 h4] at h ⊢
            obtain ⟨p, hp, hpr⟩ := ih h
            refine ⟨p, ?_, hpr⟩
            have hne : (integrationLoop isFin b mass dl rE hl n (r + drOf b mass r t * dl)
                (phi + b / (r * r) * dl) false false t (drOf b mass r t)).points ≠ [] := by
              intro hnil
              rw [hnil] at hp
              simp at hp
            obtain ⟨y, ys, hys⟩ := List.exists_cons_of_ne_nil hne
            show (⟨r + drOf b mass r t * dl, phi + b / (r * r) * dl, false, false, t⟩ ::
                (integrationLoop isFin b mass dl rE hl n (r + drOf b mass r t * dl)
                  (phi + b / (r * r) * dl) false false t (drOf b mass r t)).points).getLast?
              = some p
            rw [hys, List.getLast?_cons_cons, ← hys]
            exact hp

/-- A run that pushes two or more points cannot have tripped either break
on its first iteration, so the start radius passed both checks. -/
lemma loop_len2_checks {isFin : ℝ → Bool} {b mass dl rE hl : ℝ} {fuel : ℕ} {r phi : ℝ}
    {c e t : Bool} {pd : ℝ}
    (h : 2 ≤ (integrationLoop isFin b mass dl rE hl fuel r phi c e t pd).points.length) :
    ¬r > rE ∧ ¬r < hl := by
  cases fuel with
  | zero => rw [loop_zero_eq] at h; simp at h
  | succ n =>
    by_cases h1 : r > rE
    · rw [loop_escape_eq _ _ _ _ _ _ _ _ _ _ _ _ _ h1] at h
      simp at h
    · by_cases h2 : r < hl
      · rw [loop_cross_eq _ _ _ _ _ _ _ _ _ _ _ _ _ h1 h2] at h
        simp at h
      · exact ⟨h1, h2⟩

/-- In a crossed run, every pushed point other than the final two has a
radius that passed the horizon check: it is at least `rHorizonLimit`. -/
lemma loop_crossed_prefix {isFin : ℝ → Bool} {b mass dl rE hl : ℝ} :
    ∀ {fuel : ℕ} {r phi : ℝ} {t : Bool} {pd : ℝ} (d : TrajPoint) (i : ℕ),
      (integrationLoop isFin b mass dl rE hl fuel r phi false false t pd).crossed = true →
      i + 2 < (integrationLoop isFin b mass dl rE hl fuel r phi false false t pd).points.length →
      hl ≤ ((integrationLoop isFin b mass dl rE hl fuel r phi false false t pd).points.getD i d).r := by
  intro fuel
  induction fuel with
  | zero =>
    intro r phi t pd d i hc hlen
    rw [loop_zero_eq] at hc
    simp at hc
  | succ n ih =>
    intro r phi t pd d i hc hlen
    by_cases h1 : r > rE
    · rw [loop_escape_eq _ _ _ _ _ _ _ _ _ _ _ _ _ h1] at hc
      simp at hc
    · by_cases h2 : r < hl
      · rw [loop_cross_eq _ _ _ _ _ _ _ _ _ _ _ _ _ h1 h2] at hlen
        simp only [List.length_cons, List.length_nil] at hlen
        omega
      · by_cases h3 : Fdisc b mass r < 0
        · rw [loop_turn_eq _ _ _ _ _ _ _ _ _ _ _ _ _ h1 h2 h3] at hc hlen ⊢
          cases i with
          | zero => exact not_lt.mp h2
          | succ j =>
            have hlen2 : j + 2 < (integrationLoop isFin b mass dl rE hl n
                (r + Real.sqrt (max 0 (-Fdisc b mass r) + 1e-8) * dl)
                (phi + b / (r * r) * dl) false false true 0).points.length := by
              simp only [List.length_cons] at hlen
              omega
            exact ih d j hc hlen2
        · by_cases h4 : isFin (r + drOf b mass r t * dl) = false
              ∨ isFin (phi + b / (r * r) * dl) = false
          · rw [loop_normBreak_eq _ _ _ _ _ _ _ _ _ _ _ _ _ h1 h2 h3 h4] at hc
            simp at hc
          · rw [loop_normCons_eq _ _ _ _ _ _ _ _ _ _ _ _ _ h1 h2 h3 h4] at hc hlen ⊢
            cases i with
            | zero =>
              have hlen2 : 2 ≤ (integrationLoop isFin b mass dl rE hl n
                  (r + drOf b mass r t * dl) (phi + b / (r * r) * dl) false false t
                  (drOf b mass r t)).points.length := by
                simp only [List.length_cons] at hlen
                omega
              exact not_lt.mp (loop_len2_checks hlen2).2
            | succ j =>
              have hlen2 : j + 2 < (integrationLoop isFin b mass dl rE hl n
                  (r + drOf b mass r t * dl) (phi + b / (r * r) * dl) false false t
                  (drOf b mass r t)).points.length := by
                simp only [List.length_cons] at hlen
                omega
              exact ih d j hc hlen2

/-- A crossed run of exactly one point broke immediately: its single point
carries the start radius, which lies below the horizon limit. -/
lemma loop_crossed_len1 {isFin : ℝ → Bool} {b mass dl rE hl : ℝ} {fuel : ℕ} {r phi : ℝ}
    {t : Bool} {pd : ℝ} (d : TrajPoint)
    (hc : (integrationLoop isFin b mass dl rE hl fuel r phi false false t pd).crossed = true)
    (hlen : (integrationLoop isFin b mass dl rE hl fuel r phi false false t pd).points.length = 1) :
    ((integrationLoop isFin b mass dl rE hl fuel r phi false false t pd).points.getD 0 d).r = r
      ∧ r < hl := by
  cases fuel with
  | zero => rw [loop_zero_eq] at hc; simp at hc
  | succ n =>
    by_cases h1 : r > rE
    · rw [loop_escape_eq _ _ _ _ _ _ _ _ _ _ _ _ _ h1] at hc
      simp at hc
    · by_cases h2 : r < hl
      · rw [loop_cross_eq _ _ _ _ _ _ _ _ _ _ _ _ _ h1 h2]
        exact ⟨rfl, h2⟩
      · by_cases h3 : Fdisc b mass r < 0
        · rw [loop_turn_eq _ _ _ _ _ _ _ _ _ _ _ _ _ h1 h2 h3] at hc hlen
          have hnil : (integrationLoop isFin b mass dl rE hl n
              (r + Real.sqrt (max 0 (-Fdisc b mass r) + 1e-8) * dl)
              (phi + b / (r * r) * dl) false false true 0).points = [] := by
            simp only [List.length_cons] at hlen
            exact List.length_eq_zero.mp (by omega)
          exact absurd hnil (loop_crossed_ne_nil hc)
        · by_cases h4 : isFin (r + drOf b mass r t * dl) = false
              ∨ isFin (phi + b / (r * r) * dl) = false
          · rw [loop_normBreak_eq _ _ _ _ _ _ _ _ _ _ _ _ _ h1 h2 h3 h4] at hc
            simp at hc
          · rw [loop_normCons_eq _ _ _ _ _ _ _ _ _ _ _ _ _ h1 h2 h3 h4] at hc hlen
            have hnil : (integrationLoop isFin b mass dl rE hl n (r + drOf b mass r t * dl)
                (phi + b / (r * r) * dl) false false t (drOf b mass r t)).points = [] := by
              simp only [List.length_cons] at hlen
              exact List.length_eq_zero.mp (by omega)
            exact absurd hnil (loop_crossed_ne_nil hc)

/-- In a crossed run of at least two points, the penultimate pushed point
either still sits at or above the horizon limit or already equals the final
radius (the final point repeats the radius that triggered the break). -/
lemma loop_crossed_penult {isFin : ℝ → Bool} {b mass dl rE hl : ℝ} :
    ∀ {fuel : ℕ} {r phi : ℝ} {t : Bool} {pd : ℝ} (d : TrajPoint) (p : TrajPoint),
      (integrationLoop isFin b mass dl rE hl fuel r phi false false t pd).crossed = true →
      2 ≤ (integrationLoop isFin b mass dl rE hl fuel r phi false false t pd).points.length →
      (integrationLoop isFin b mass dl rE hl fuel r phi false false t pd).points.getLast?
        = some p →
      hl ≤ ((integrationLoop isFin b mass dl rE hl fuel r phi false false t pd).points.getD
              ((integrationLoop isFin b mass dl rE hl fuel r phi false false t pd).points.length
                - 2) d).r
        ∨ ((integrationLoop isFin b mass dl rE hl fuel r phi false false t pd).points.getD
              ((integrationLoop isFin b mass dl rE hl fuel r phi false false t pd).points.length
                - 2) d).r = p.r := by
  intro fuel
  induction fuel with
  | zero =>
    intro r phi t pd d p hc hlen hp
    rw [loop_zero_eq] at hc
    simp at hc
  | succ n ih =>
    intro r phi t pd d p hc hlen hp
    by_cases h1 : r > rE
    · rw [loop_escape_eq _ _ _ _ _ _ _ _ _ _ _ _ _ h1] at hc
      simp at hc
    · by_cases h2 : r < hl
      · rw [loop_cross_eq _ _ _ _ _ _ _ _ _ _ _ _ _ h1 h2] at hlen
        simp at hlen
      · by_cases h3 : Fdisc b mass r < 0
        · rw [loop_turn_eq _ _ _ _ _ _ _ _ _ _ _ _ _ h1 h2 h3] at hc hlen hp ⊢
          rcases Nat.lt_or_ge (integrationLoop isFin b mass dl rE hl n
              (r + Real.sqrt (max 0 (-Fdisc b mass r) + 1e-8) * dl)
              (phi + b / (r * r) * dl) false false true 0).points.length 2 with hR | hR
          · -- rest has at most one point; since it is a crossed run it has exactly one
            have hne := loop_crossed_ne_nil hc
            have hR0 : (integrationLoop isFin b mass dl rE hl n
                (r + Real.sqrt (max 0 (-Fdisc b mass r) + 1e-8) * dl)
                (phi + b / (r * r) * dl) false false true 0).points.length ≠ 0 := by
              intro h0
              exact hne (List.length_eq_zero.mp h0)
            have hR1 : (integrationLoop isFin b mass dl rE hl n
                (r + Real.sqrt (max 0 (-Fdisc b mass r) + 1e-8) * dl)
                (phi + b / (r * r) * dl) false false true 0).points.length = 1 := by
              omega
            -- whole list has length 2, so the penultimate index is 0: the head q with q.r = r
            left
            have hidx : (⟨r, phi, false, false, true⟩ :: (integrationLoop isFin b mass dl rE hl n
                (r + Real.sqrt (max 0 (-Fdisc b mass r) + 1e-8) * dl)
                (phi + b / (r * r) * dl) false false true 0).points).length - 2 = 0 := by
              simp only [List.length_cons, hR1]
            show hl ≤ ((⟨r, phi, false, false, true⟩ :: (integrationLoop isFin b mass dl rE hl n
                (r + Real.sqrt (max 0 (-Fdisc b mass r) + 1e-8) * dl)
                (phi + b / (r * r) * dl) false false true 0).points).getD
                ((⟨r, phi, false, false, true⟩ :: (integrationLoop isFin b mass dl rE hl n
                  (r + Real.sqrt (max 0 (-Fdisc b mass r) + 1e-8) * dl)
                  (phi + b / (r * r) * dl) false false true 0).points).length - 2) d).r
            rw [hidx]
            exact not_lt.mp h2
          · -- rest has at least two points: recurse
            have hne := loop_crossed_ne_nil hc
            obtain ⟨y, ys, hys⟩ := List.exists_cons_of_ne_nil hne
            have hp2 : (integrationLoop isFin b mass dl rE hl n
                (r + Real.sqrt (max 0 (-Fdisc b mass r) + 1e-8) * dl)
                (phi + b / (r * r) * dl) false false true 0).points.getLast? = some p := by
              rw [hys] at hp ⊢
              rw [List.getLast?_cons_cons] at hp
              exact hp
            have := ih d p hc hR hp2
            -- re-index through the extra head
            have hidx : ∀ m : ℕ, 2 ≤ m →
                (⟨r, phi, false, false, true⟩ :: (integrationLoop isFin b mass dl rE hl n
                  (r + Real.sqrt (max 0 (-Fdisc b mass r) + 1e-8) * dl)
                  (phi + b / (r * r) * dl) false false true 0).points).getD (m + 1 - 2) d
                = (integrationLoop isFin b mass dl rE hl n
                  (r + Real.sqrt (max 0 (-Fdisc b mass r) + 1e-8) * dl)
                  (phi + b / (r * r) * dl) false false true 0).points.getD (m - 2) d := by
              intro m hm
              obtain ⟨k, rfl⟩ := Nat.exists_eq_add_of_le hm
              have e1 : 2 + k + 1 - 2 = k + 1 := by omega
              have e2 : 2 + k - 2 = k := by omega
              rw [e1, e2]
              rfl
            show hl ≤ ((⟨r, phi, false, false, true⟩ :: (integrationLoop isFin b mass dl rE hl n
                  (r + Real.sqrt (max 0 (-Fdisc b mass r) + 1e-8) * dl)
                  (phi + b / (r * r) * dl) false false true 0).points).getD
                  ((integrationLoop isFin b mass dl rE hl n
                    (r + Real.sqrt (max 0 (-Fdisc b mass r) + 1e-8) * dl)
                    (phi + b / (r * r) * dl) false false true 0).points.length + 1 - 2) d).r
              ∨ ((⟨r, phi, false, false, true⟩ :: (integrationLoop isFin b mass dl rE hl n
                  (r + Real.sqrt (max 0 (-Fdisc b mass r) + 1e-8) * dl)
                  (phi + b / (r * r) * dl) false false true 0).points).getD
                  ((integrationLoop isFin b mass dl rE hl n
                    (r + Real.sqrt (max 0 (-Fdisc b mass r) + 1e-8) * dl)
                    (phi + b / (r * r) * dl) false false true 0).points.length + 1 - 2) d).r = p.r
            rw [hidx _ hR]
            exact this
        · by_cases h4 : isFin (r + drOf b mass r t * dl) = false
              ∨ isFin (phi + b / (r * r) * dl) = false
          · rw [loop_normBreak_eq _ _ _ _ _ _ _ _ _ _ _ _ _ h1 h2 h3 h4] at hc
            simp at hc
          · rw [loop_normCons_eq _ _ _ _ _ _ _ _ _ _ _ _ _ h1 h2 h3 h4] at hc hlen hp ⊢
            rcases Nat.lt_or_ge (integrationLoop isFin b mass dl rE hl n
                (r + drOf b mass r t * dl) (phi + b / (r * r) * dl) false false t
                (drOf b mass r t)).points.length 2 with hR | hR
            · -- rest is a one-point crossed run: its point repeats the pushed radius
              have hne := loop_crossed_ne_nil hc
              have hR0 : (integrationLoop isFin b mass dl rE hl n
                  (r + drOf b mass r t * dl) (phi + b / (r * r) * dl) false false t
                  (drOf b mass r t)).points.length ≠ 0 := by
                intro h0
                exact hne (List.length_eq_zero.mp h0)
              have hR1 : (integrationLoop isFin b mass dl rE hl n
                  (r + drOf b mass r t * dl) (phi + b / (r * r) * dl) false false t
                  (drOf b mass r t)).points.length = 1 := by
                omega
              obtain ⟨z, hz⟩ := List.length_eq_one.mp hR1
              have hz2 := (loop_crossed_len1 d hc hR1).1
              rw [hz] at hz2
              -- identify p with z
              have hzp : z = p := by
                rw [hz] at hp
                have : (⟨r + drOf b mass r t * dl, phi + b / (r * r) * dl, false, false, t⟩ ::
                    [z]).getLast? = some z := rfl
                rw [this] at hp
                exact Option.some.inj hp
              right
              have hidx : (⟨r + drOf b mass r t * dl, phi + b / (r * r) * dl, false, false, t⟩ ::
                  (integrationLoop isFin b mass dl rE hl n (r + drOf b mass r t * dl)
                    (phi + b / (r * r) * dl) false false t (drOf b mass r t)).points).length - 2
                  = 0 := by
                simp only [List.length_cons, hR1]
              show ((⟨r + drOf b mass r t * dl, phi + b / (r * r) * dl, false, false, t⟩ ::
                  (integrationLoop isFin b mass dl rE hl n (r + drOf b mass r t * dl)
                    (phi + b / (r * r) * dl) false false t (drOf b mass r t)).points).getD
                  ((⟨r + drOf b mass r t * dl, phi + b / (r * r) * dl, false, false, t⟩ ::
                    (integrationLoop isFin b mass dl rE hl n (r + drOf b mass r t * dl)
                      (phi + b / (r * r) * dl) false false t (drOf b mass r t)).points).length
                    - 2) d).r = p.r
              rw [hidx]
              show (r + drOf b mass r t * dl) = p.r
              rw [← hzp]
              simp only [List.getD_cons_zero] at hz2
              exact hz2.symm
            · have hne := loop_crossed_ne_nil hc
              obtain ⟨y, ys, hys⟩ := List.exists_cons_of_ne_nil hne
              have hp2 : (integrationLoop isFin b mass dl rE hl n (r + drOf b mass r t * dl)
                  (phi + b / (r * r) * dl) false false t (drOf b mass r t)).points.getLast?
                  = some p := by
                rw [hys] at hp ⊢
                rw [List.getLast?_cons_cons] at hp
                exact hp
              have := ih d p hc hR hp2
              have hidx : ∀ m : ℕ, 2 ≤ m →
                  (⟨r + drOf b mass r t * dl, phi + b / (r * r) * dl, false, false, t⟩ ::
                    (integrationLoop isFin b mass dl rE hl n (r + drOf b mass r t * dl)
                      (phi + b / (r * r) * dl) false false t (drOf b mass r t)).points).getD
                    (m + 1 - 2) d
                  = (integrationLoop isFin b mass dl rE hl n (r + drOf b mass r t * dl)
                      (phi + b / (r * r) * dl) false false t (drOf b mass r t)).points.getD
                    (m - 2) d := by
                intro m hm
                obtain ⟨k, rfl⟩ := Nat.exists_eq_add_of_le hm
                have e1 : 2 + k + 1 - 2 = k + 1 := by omega
                have e2 : 2 + k - 2 = k := by omega
                rw [e1, e2]
                rfl
              show hl ≤ ((⟨r + drOf b mass r t * dl, phi + b / (r * r) * dl, false, false, t⟩ ::
                    (integrationLoop isFin b mass dl rE hl n (r + drOf b mass r t * dl)
                      (phi + b / (r * r) * dl) false false t (drOf b mass r t)).points).getD
                    ((integrationLoop isFin b mass dl rE hl n (r + drOf b mass r t * dl)
                      (phi + b / (r * r) * dl) false false t (drOf b mass r t)).points.length
                      + 1 - 2) d).r
                ∨ ((⟨r + drOf b mass r t * dl, phi + b / (r * r) * dl, false, false, t⟩ ::
                    (integrationLoop isFin b mass dl rE hl n (r + drOf b mass r t * dl)
                      (phi + b / (r * r) * dl) false false t (drOf b mass r t)).points).getD
                    ((integrationLoop isFin b mass dl rE hl n (r + drOf b mass r t * dl)
                      (phi + b / (r * r) * dl) false false t (drOf b mass r t)).points.length
                      + 1 - 2) d).r = p.r
              rw [hidx _ hR]
              exact this

/-- In a crossed run the final radius never exceeds the radius recorded
about twenty pushes earlier: the asymptotic-escape heuristic cannot fire on
a capture. -/
lemma loop_crossed_last_not_gt_prev {isFin : ℝ → Bool} {b mass dl rE hl : ℝ} {fuel : ℕ}
    {r phi : ℝ} {t : Bool} {pd : ℝ} (d : TrajPoint) {p : TrajPoint}
    (hc : (integrationLoop isFin b mass dl rE hl fuel r phi false false t pd).crossed = true)
    (hp : (integrationLoop isFin b mass dl rE hl fuel r phi false false t pd).points.getLast?
          = some p) :
    ¬p.r > ((integrationLoop isFin b mass dl rE hl fuel r phi false false t pd).points.getD
        ((integrationLoop isFin b mass dl rE hl fuel r phi false false t pd).points.length - 20)
        d).r := by
  intro hgt
  obtain ⟨q, hq, hqr⟩ := loop_crossed_last hc
  rw [hq] at hp
  obtain rfl := Option.some.inj hp
  by_cases hidx : (integrationLoop isFin b mass dl rE hl fuel r phi false false t pd).points.length
        - 20 + 2
      < (integrationLoop isFin b mass dl rE hl fuel r phi false false t pd).points.length
  · have hpre := loop_crossed_prefix d
      ((integrationLoop isFin b mass dl rE hl fuel r phi false false t pd).points.length - 20)
      hc hidx
    linarith
  · have hne : (integrationLoop isFin b mass dl rE hl fuel r phi false false t pd).points ≠ [] :=
      loop_crossed_ne_nil hc
    have hlen1 : 0 < (integrationLoop isFin b mass dl rE hl fuel r phi false false t pd).points.length :=
      List.length_pos.mpr hne
    have hcase : (integrationLoop isFin b mass dl rE hl fuel r phi false false t pd).points.length = 1
        ∨ (integrationLoop isFin b mass dl rE hl fuel r phi false false t pd).points.length = 2 := by
      omega
    rcases hcase with h1 | h2
    · obtain ⟨a, ha⟩ := List.length_eq_one.mp h1
      rw [ha] at hq hgt
      simp only [List.getLast?_singleton] at hq
      have hidx0 : ([a] : List TrajPoint).length - 20 = 0 := by simp
      rw [hidx0, List.getD_cons_zero] at hgt
      obtain rfl := Option.some.inj hq
      exact lt_irrefl _ hgt
    · have hpen := loop_crossed_penult d q hc (by omega) hq
      have hi : (integrationLoop isFin b mass dl rE hl fuel r phi false false t pd).points.length - 20
          = (integrationLoop isFin b mass dl rE hl fuel r phi false false t pd).points.length - 2 := by
        omega
      rw [hi] at hgt
      rcases hpen with hpen | hpen
      · linarith
      · rw [hpen] at hgt
        exact lt_irrefl _ hgt

/-- At the `computeTrajectoryFin` level the final flags never report both a
crossing and an escape: inside the loop each is only set by a run-ending
break, and the post-loop escape heuristic cannot fire on a crossed run. -/
lemma computeTrajectoryFin_not_both (isFin : ℝ → Bool) (b mass : ℝ) (opts : TrajectoryOptions) :
    ((computeTrajectoryFin isFin b mass opts).crossed
      && (computeTrajectoryFin isFin b mass opts).escaped) = false := by
  simp only [computeTrajectoryFin, escapeHeuristic]
  set L := integrationLoop isFin b mass (opts.dLambda.getD 0.05) 150 (2.01 * mass)
    (opts.maxSteps.getD 6000) (opts.rStart.getD 100) (opts.phi0.getD 0) false false false (-1)
    with hL
  cases hc : L.crossed with
  | false => rw [Bool.false_and]
  | true =>
    have hesc : L.escaped = false := by
      rw [hL]
      exact loop_not_both (by rw [← hL]; exact hc)
    rw [Bool.true_and]
    split
    next hlen =>
      split
      next last heq =>
        split
        next hcond =>
          exfalso
          rw [hL] at hc heq hcond
          exact loop_crossed_last_not_gt_prev last hc heq hcond.2
        next hcond => exact hesc
      next heq => exact hesc
    next hlen => exact hesc

/-- C7: for every impact parameter, mass and integration configuration, the
flags at termination of `computeTrajectory` never have `crossed` and
`escaped` both true — either exactly one of them is set, or neither is and
the run is inconclusive. -/
theorem computeTrajectory_crossed_escaped_exclusive (b mass : ℝ) (opts : TrajectoryOptions) :
    ((computeTrajectory b mass opts).crossed && (computeTrajectory b mass opts).escaped)
      = false :=
  computeTrajectoryFin_not_both (fun _ => true) b mass opts

/-! ### C5: the max-steps asymptotic-escape heuristic -/

/-- C5 (amended): when the loop exhausts `maxSteps` without a clean
termination (no crossing and no escape set by a break), the post-loop
heuristic applies: the run ends `crossed = false` and is classified
`escaped` exactly when the final radius exceeds the absolute threshold 50
— not `50·M` — and exceeds the radius recorded about twenty pushes
earlier. -/
theorem computeTrajectory_maxsteps_heuristic (b mass : ℝ) (opts : TrajectoryOptions)
    (hc : (integrationLoop (fun _ => true) b mass (opts.dLambda.getD 0.05) 150 (2.01 * mass)
        (opts.maxSteps.getD 6000) (opts.rStart.getD 100) (opts.phi0.getD 0)
        false false false (-1)).crossed = false)
    (he : (integrationLoop (fun _ => true) b mass (opts.dLambda.getD 0.05) 150 (2.01 * mass)
        (opts.maxSteps.getD 6000) (opts.rStart.getD 100) (opts.phi0.getD 0)
        false false false (-1)).escaped = false)
    (hlen : (integrationLoop (fun _ => true) b mass (opts.dLambda.getD 0.05) 150 (2.01 * mass)
        (opts.maxSteps.getD 6000) (opts.rStart.getD 100) (opts.phi0.getD 0)
        false false false (-1)).points.length = opts.maxSteps.getD 6000) :
    (computeTrajectory b mass opts).crossed = false ∧
    ∀ p, (integrationLoop (fun _ => true) b mass (opts.dLambda.getD 0.05) 150 (2.01 * mass)
        (opts.maxSteps.getD 6000) (opts.rStart.getD 100) (opts.phi0.getD 0)
        false false false (-1)).points.getLast? = some p →
      ((computeTrajectory b mass opts).escaped = true ↔
        (p.r > 50 ∧ p.r > ((integrationLoop (fun _ => true) b mass (opts.dLambda.getD 0.05) 150
            (2.01 * mass) (opts.maxSteps.getD 6000) (opts.rStart.getD 100) (opts.phi0.getD 0)
            false false false (-1)).points.getD
            ((integrationLoop (fun _ => true) b mass (opts.dLambda.getD 0.05) 150 (2.01 * mass)
              (opts.maxSteps.getD 6000) (opts.rStart.getD 100) (opts.phi0.getD 0)
              false false false (-1)).points.length - 20) p).r)) := by
  constructor
  · simp only [computeTrajectory, computeTrajectoryFin]
    exact hc
  · intro p hp
    have hev : (computeTrajectory b mass opts).escaped
        = (if p.r > 50 ∧ p.r > ((integrationLoop (fun _ => true) b mass (opts.dLambda.getD 0.05)
              150 (2.01 * mass) (opts.maxSteps.getD 6000) (opts.rStart.getD 100)
              (opts.phi0.getD 0) false false false (-1)).points.getD
              ((integrationLoop (fun _ => true) b mass (opts.dLambda.getD 0.05) 150 (2.01 * mass)
                (opts.maxSteps.getD 6000) (opts.rStart.getD 100) (opts.phi0.getD 0)
                false false false (-1)).points.length - 20) p).r then true
           else (integrationLoop (fun _ => true) b mass (opts.dLambda.getD 0.05) 150 (2.01 * mass)
              (opts.maxSteps.getD 6000) (opts.rStart.getD 100) (opts.phi0.getD 0)
              false false false (-1)).escaped) := by
      simp only [computeTrajectory, computeTrajectoryFin, escapeHeuristic]
      rw [if_pos hlen, hp]
    rw [hev]
    by_cases hcond : (p.r > 50 ∧ p.r > ((integrationLoop (fun _ => true) b mass
        (opts.dLambda.getD 0.05) 150 (2.01 * mass) (opts.maxSteps.getD 6000)
        (opts.rStart.getD 100) (opts.phi0.getD 0) false false false (-1)).points.getD
        ((integrationLoop (fun _ => true) b mass (opts.dLambda.getD 0.05) 150 (2.01 * mass)
          (opts.maxSteps.getD 6000) (opts.rStart.getD 100) (opts.phi0.getD 0)
          false false false (-1)).points.length - 20) p).r)
    · rw [if_pos hcond]
      exact ⟨fun _ => hcond, fun _ => rfl⟩
    · rw [if_neg hcond, he]
      exact iff_of_false (by simp) hcond

/-- Concrete two-step run used to exercise the heuristic: `b = 63`,
`M = 2`, `dλ = 0.05`, two steps from `r = 60`.  Both iterations take the
turning branch (`F < 0`), so the radius grows slightly above 60 and the
loop exhausts its fuel with both flags clear. -/
lemma c5_loop_eval :
    integrationLoop (fun _ => true) 63 2 0.05 150 (2.01 * 2) 2 60 0 false false false (-1)
      = ⟨[⟨60, 0, false, false, true⟩,
          ⟨60 + Real.sqrt (29 / 1000 + 1e-8) * 0.05, 7 / 8000, false, false, true⟩],
         false, false, true⟩ := by
  have hs0 : 0 < Real.sqrt (29 / 1000 + 1e-8) := Real.sqrt_pos.mpr (by norm_num)
  have hs2 : Real.sqrt (29 / 1000 + 1e-8) ≤ 1 / 5 := by
    rw [show (1 / 5 : ℝ) = Real.sqrt ((1 / 5) ^ 2) from (Real.sqrt_sq (by norm_num)).symm]
    apply Real.sqrt_le_sqrt
    norm_num
  have h1 : ¬(60 : ℝ) > 150 := by norm_num
  have h2 : ¬(60 : ℝ) < 2.01 * 2 := by norm_num
  have h3 : Fdisc 63 2 60 < 0 := by norm_num [Fdisc]
  rw [loop_turn_eq _ _ _ _ _ _ _ _ _ _ _ _ _ h1 h2 h3]
  have harg : max 0 (-Fdisc 63 2 60) + 1e-8 = 29 / 1000 + 1e-8 := by norm_num [Fdisc]
  rw [harg]
  have hphi : (0 : ℝ) + 63 / (60 * 60) * 0.05 = 7 / 8000 := by norm_num
  rw [hphi]
  set r1 : ℝ := 60 + Real.sqrt (29 / 1000 + 1e-8) * 0.05 with hr1
  clear_value r1
  have hr1l : 60 < r1 := by
    rw [hr1]
    nlinarith
  have hr1u : r1 ≤ 6001 / 100 := by
    rw [hr1]
    nlinarith
  have h1b : ¬r1 > 150 := by
    intro hcon
    nlinarith
  have h2b : ¬r1 < 2.01 * 2 := by
    intro hcon
    nlinarith
  have h3b : Fdisc 63 2 r1 < 0 := by
    have hr1pos : (0 : ℝ) < r1 := by linarith
    have h4r : (4 : ℝ) / r1 < 4 / 60 := by
      apply div_lt_div_of_pos_left
      · norm_num
      · norm_num
      · exact hr1l
    norm_num at h4r
    simp only [Fdisc]
    rw [sub_neg, lt_div_iff₀ (by positivity : (0 : ℝ) < r1 * r1)]
    have hA : r1 * r1 ≤ (6001 / 100) * (6001 / 100) := by nlinarith
    have hC : (18522 / 5 : ℝ) < 63 * 63 * (1 - 2 * 2 / r1) := by
      have hfr : (1 : ℝ) - 2 * 2 / r1 > 14 / 15 := by
        have h42 : (2 : ℝ) * 2 / r1 = 4 / r1 := by ring
        rw [h42]
        linarith
      nlinarith
    nlinarith
  rw [loop_turn_eq _ _ _ _ _ _ _ _ _ _ _ _ _ h1b h2b h3b]
  rw [loop_zero_eq]

/-- C5 (counterexample): with `M = 2` the claimed threshold is
`50·M = 100`, yet this run — which exhausts `maxSteps = 2` with no break,
every radius staying below 100 — is still classified `escaped = true`,
because the source compares the final radius against the absolute constant
50, not `50·M`. -/
theorem computeTrajectory_heuristic_threshold_cex :
    (computeTrajectory 63 2 ⟨some 0.05, some 2, some 60, some 0⟩).points.length = 2 ∧
    (computeTrajectory 63 2 ⟨some 0.05, some 2, some 60, some 0⟩).crossed = false ∧
    (computeTrajectory 63 2 ⟨some 0.05, some 2, some 60, some 0⟩).escaped = true ∧
    (computeTrajectory 63 2 ⟨some 0.05, some 2, some 60, some 0⟩).points.Forall
      (fun p => p.r < 50 * 2) := by
  have hs0 : 0 < Real.sqrt (29 / 1000 + 1e-8) := Real.sqrt_pos.mpr (by norm_num)
  have hs2 : Real.sqrt (29 / 1000 + 1e-8) ≤ 1 / 5 := by
    rw [show (1 / 5 : ℝ) = Real.sqrt ((1 / 5) ^ 2) from (Real.sqrt_sq (by norm_num)).symm]
    apply Real.sqrt_le_sqrt
    norm_num
  have hgt50 : (60 : ℝ) + Real.sqrt (29 / 1000 + 1e-8) * 0.05 > 50 := by nlinarith
  have hgt60 : (60 : ℝ) + Real.sqrt (29 / 1000 + 1e-8) * 0.05 > 60 := by nlinarith
  have hlt100 : (60 : ℝ) + Real.sqrt (29 / 1000 + 1e-8) * 0.05 < 50 * 2 := by nlinarith
  have hH : escapeHeuristic
      [⟨60, 0, false, false, true⟩,
       ⟨60 + Real.sqrt (29 / 1000 + 1e-8) * 0.05, 7 / 8000, false, false, true⟩] 2 false
      = true := by
    simp [escapeHeuristic, hgt50, hgt60]
  simp only [computeTrajectory, computeTrajectoryFin, Option.getD_some]
  rw [c5_loop_eval]
  dsimp only
  rw [hH]
  refine ⟨by simp, rfl, rfl, ?_⟩
  refine (list_forall_map _ _ _).mpr ?_
  refine (List.forall_cons _ _ _).mpr ⟨?_, (List.forall_cons _ _ _).mpr ⟨?_, trivial⟩⟩
  · show (60 : ℝ) < 50 * 2
    norm_num
  · exact hlt100

/-- Witness for C5 at the concrete two-step turning run `b = 63`, `M = 2`,
`maxSteps = 2`, `rStart = 60`. -/
theorem computeTrajectory_maxsteps_heuristic_witness :
    (computeTrajectory 63 2 ⟨some 0.05, some 2, some 60, some 0⟩).crossed = false ∧
    ∀ p, (integrationLoop (fun _ => true) 63 2
        ((⟨some 0.05, some 2, some 60, some 0⟩ : TrajectoryOptions).dLambda.getD 0.05) 150
        (2.01 * 2) ((⟨some 0.05, some 2, some 60, some 0⟩ : TrajectoryOptions).maxSteps.getD 6000)
        ((⟨some 0.05, some 2, some 60, some 0⟩ : TrajectoryOptions).rStart.getD 100)
        ((⟨some 0.05, some 2, some 60, some 0⟩ : TrajectoryOptions).phi0.getD 0)
        false false false (-1)).points.getLast? = some p →
      ((computeTrajectory 63 2 ⟨some 0.05, some 2, some 60, some 0⟩).escaped = true ↔
        (p.r > 50 ∧ p.r > ((integrationLoop (fun _ => true) 63 2
            ((⟨some 0.05, some 2, some 60, some 0⟩ : TrajectoryOptions).dLambda.getD 0.05) 150
            (2.01 * 2)
            ((⟨some 0.05, some 2, some 60, some 0⟩ : TrajectoryOptions).maxSteps.getD 6000)
            ((⟨some 0.05, some 2, some 60, some 0⟩ : TrajectoryOptions).rStart.getD 100)
            ((⟨some 0.05, some 2, some 60, some 0⟩ : TrajectoryOptions).phi0.getD 0)
            false false false (-1)).points.getD
            ((integrationLoop (fun _ => true) 63 2
              ((⟨some 0.05, some 2, some 60, some 0⟩ : TrajectoryOptions).dLambda.getD 0.05) 150
              (2.01 * 2)
              ((⟨some 0.05, some 2, some 60, some 0⟩ : TrajectoryOptions).maxSteps.getD 6000)
              ((⟨some 0.05, some 2, some 60, some 0⟩ : TrajectoryOptions).rStart.getD 100)
              ((⟨some 0.05, some 2, some 60, some 0⟩ : TrajectoryOptions).phi0.getD 0)
              false false false (-1)).points.length - 20) p).r)) :=
  computeTrajectory_maxsteps_heuristic 63 2 ⟨some 0.05, some 2, some 60, some 0⟩
    (by simp only [Option.getD_some]
        rw [c5_loop_eval])
    (by simp only [Option.getD_some]
        rw [c5_loop_eval])
    (by simp only [Option.getD_some]
        rw [c5_loop_eval]
        rfl)

/-! ### C4: divergence handling -/

/-- `getLast?` commutes with `map`. -/
lemma list_getLast?_map {α β : Type} (f : α → β) :
    ∀ l : List α, (l.map f).getLast? = (l.getLast?).map f := by
  intro l
  induction l with
  | nil => rfl
  | cons x xs ih =>
    cases xs with
    | nil => rfl
    | cons y ys =>
      simp only [List.map_cons] at ih ⊢
      rw [List.getLast?_cons_cons, List.getLast?_cons_cons]
      exact ih

/-- If a run ends with both flags clear and fewer points than fuel, the
loop must have stopped at the non-finiteness break, and the offending point
— whose `r` or `phi` fails the finiteness test — is the last point pushed. -/
lemma loop_break_nonfinite {isFin : ℝ → Bool} {b mass dl rE hl : ℝ} :
    ∀ {fuel : ℕ} {r phi : ℝ} {t : Bool} {pd : ℝ},
      (integrationLoop isFin b mass dl rE hl fuel r phi false false t pd).crossed = false →
      (integrationLoop isFin b mass dl rE hl fuel r phi false false t pd).escaped = false →
      (integrationLoop isFin b mass dl rE hl fuel r phi false false t pd).points.length < fuel →
      ∃ p, (integrationLoop isFin b mass dl rE hl fuel r phi false false t pd).points.getLast?
            = some p ∧ (isFin p.r = false ∨ isFin p.phi = false) := by
  intro fuel
  induction fuel with
  | zero =>
    intro r phi t pd hc he hlen
    rw [loop_zero_eq] at hlen
    simp at hlen
  | succ n ih =>
    intro r phi t pd hc he hlen
    by_cases h1 : r > rE
    · rw [loop_escape_eq _ _ _ _ _ _ _ _ _ _ _ _ _ h1] at he
      simp at he
    · by_cases h2 : r < hl
      · rw [loop_cross_eq _ _ _ _ _ _ _ _ _ _ _ _ _ h1 h2] at hc
        simp at hc
      · by_cases h3 : Fdisc b mass r < 0
        · rw [loop_turn_eq _ _ _ _ _ _ _ _ _ _ _ _ _ h1 h2 h3] at hc he hlen ⊢
          have hlen2 : (integrationLoop isFin b mass dl rE hl n
              (r + Real.sqrt (max 0 (-Fdisc b mass r) + 1e-8) * dl)
              (phi + b / (r * r) * dl) false false true 0).points.length < n := by
            simp only [List.length_cons] at hlen
            omega
          obtain ⟨p, hp, hfin⟩ := ih hc he hlen2
          refine ⟨p, ?_, hfin⟩
          have hne : (integrationLoop isFin b mass dl rE hl n
              (r + Real.sqrt (max 0 (-Fdisc b mass r) + 1e-8) * dl)
              (phi + b / (r * r) * dl) false false true 0).points ≠ [] := by
            intro hnil
            rw [hnil] at hp
            simp at hp
          obtain ⟨y, ys, hys⟩ := List.exists_cons_of_ne_nil hne
          show (⟨r, phi, false, false, true⟩ :: (integrationLoop isFin b mass dl rE hl n
              (r + Real.sqrt (max 0 (-Fdisc b mass r) + 1e-8) * dl)
              (phi + b / (r * r) * dl) false false true 0).points).getLast? = some p
          rw [hys, List.getLast?_cons_cons, ← hys]
          exact hp
        · by_cases h4 : isFin (r + drOf b mass r t * dl) = false
              ∨ isFin (phi + b / (r * r) * dl) = false
          · rw [loop_normBreak_eq _ _ _ _ _ _ _ _ _ _ _ _ _ h1 h2 h3 h4]
            exact ⟨⟨r + drOf b mass r t * dl, phi + b / (r * r) * dl, false, false, t⟩, rfl, h4⟩
          · rw [loop_normCons_eq _ _ _ _ _ _ _ _ _ _ _ _ _ h1 h2 h3 h4] at hc he hlen ⊢
            have hlen2 : (integrationLoop isFin b mass dl rE hl n (r + drOf b mass r t * dl)
                (phi + b / (r * r) * dl) false false t (drOf b mass r t)).points.length < n := by
              simp only [List.length_cons] at hlen
              omega
            obtain ⟨p, hp, hfin⟩ := ih hc he hlen2
            refine ⟨p, ?_, hfin⟩
            have hne : (integrationLoop isFin b mass dl rE hl n (r + drOf b mass r t * dl)
                (phi + b / (r * r) * dl) false false t (drOf b mass r t)).points ≠ [] := by
              intro hnil
              rw [hnil] at hp
              simp at hp
            obtain ⟨y, ys, hys⟩ := List.exists_cons_of_ne_nil hne
            show (⟨r + drOf b mass r t * dl, phi + b / (r * r) * dl, false, false, t⟩ ::
                (integrationLoop isFin b mass dl rE hl n (r + drOf b mass r t * dl)
                  (phi + b / (r * r) * dl) false false t (drOf b mass r t)).points).getLast?
              = some p
            rw [hys, List.getLast?_cons_cons, ← hys]
            exact hp

/-- C4 (amended): when `r` or `phi` fails the finiteness test mid-run, the
loop aborts right after appending the offending point: the returned
trajectory ends at the FIRST non-finite point, which is included as its
final point (it does not truncate at the last finite point), and — as long
as this happens before the final step — the run is reported inconclusive:
`crossed = false` and `escaped = false`, stamped on every point. -/
theorem computeTrajectoryFin_nonfinite_break (isFin : ℝ → Bool) (b mass : ℝ)
    (opts : TrajectoryOptions)
    (hc : (computeTrajectoryFin isFin b mass opts).crossed = false)
    (he : (computeTrajectoryFin isFin b mass opts).escaped = false)
    (hlen : (computeTrajectoryFin isFin b mass opts).points.length < opts.maxSteps.getD 6000) :
    (∃ p, (computeTrajectoryFin isFin b mass opts).points.getLast? = some p ∧
      (isFin p.r = false ∨ isFin p.phi = false)) ∧
    (computeTrajectoryFin isFin b mass opts).points.Forall
      fun p => p.crossed = false ∧ p.escaped = false := by
  constructor
  · have hlenL : (integrationLoop isFin b mass (opts.dLambda.getD 0.05) 150 (2.01 * mass)
        (opts.maxSteps.getD 6000) (opts.rStart.getD 100) (opts.phi0.getD 0)
        false false false (-1)).points.length < opts.maxSteps.getD 6000 := by
      rw [computeTrajectoryFin_length] at hlen
      exact hlen
    have hcL : (integrationLoop isFin b mass (opts.dLambda.getD 0.05) 150 (2.01 * mass)
        (opts.maxSteps.getD 6000) (opts.rStart.getD 100) (opts.phi0.getD 0)
        false false false (-1)).crossed = false := by
      simp only [computeTrajectoryFin] at hc
      exact hc
    have heL : (integrationLoop isFin b mass (opts.dLambda.getD 0.05) 150 (2.01 * mass)
        (opts.maxSteps.getD 6000) (opts.rStart.getD 100) (opts.phi0.getD 0)
        false false false (-1)).escaped = false := by
      simp only [computeTrajectoryFin, escapeHeuristic] at he
      rw [if_neg (Nat.ne_of_lt hlenL)] at he
      exact he
    obtain ⟨p, hp, hfin⟩ := loop_break_nonfinite hcL heL hlenL
    simp only [computeTrajectoryFin]
    rw [list_getLast?_map, hp]
    exact ⟨_, rfl, hfin⟩
  · exact (computeTrajectoryFin_flags_stamped isFin b mass opts).imp
      fun p hp => ⟨by rw [hp.1, hc], by rw [hp.2.1, he]⟩

/-- Concrete diverging run for C4: `b = 100`, `M = 12.5`, one non-turning
step from `r = 100` updates to `(r, phi) = (99.975, 1/2000)`, which the
modelled finiteness test rejects, so the loop aborts after pushing it. -/
lemma c4_loop_eval :
    integrationLoop isFinModel 100 12.5 0.05 150 (2.01 * 12.5) 5 100 0 false false false (-1)
      = ⟨[⟨99.975, 1 / 2000, false, false, false⟩], false, false, false⟩ := by
  have h1 : ¬(100 : ℝ) > 150 := by norm_num
  have h2 : ¬(100 : ℝ) < 2.01 * 12.5 := by norm_num
  have h3 : ¬Fdisc 100 12.5 100 < 0 := by norm_num [Fdisc]
  have hdr : drOf 100 12.5 100 false = -(1 / 2) := by
    rw [drOf]
    simp only [Bool.false_eq_true, if_false]
    rw [show Fdisc 100 12.5 100 = (1 / 2) ^ 2 by norm_num [Fdisc],
      Real.sqrt_sq (by norm_num : (0 : ℝ) ≤ 1 / 2)]
  have h4 : isFinModel (100 + drOf 100 12.5 100 false * 0.05) = false
      ∨ isFinModel ((0 : ℝ) + 100 / (100 * 100) * 0.05) = false := by
    left
    rw [hdr]
    simp only [isFinModel]
    norm_num
  rw [loop_normBreak_eq _ _ _ _ _ _ _ _ _ _ _ _ _ h1 h2 h3 h4]
  rw [hdr]
  norm_num

/-- C4 (counterexample): in this diverging run the returned trajectory does
NOT truncate at the last finite point — its single (and last) point has
both coordinates non-finite under the modelled test, i.e. the offending
point is kept.  The run is reported inconclusive. -/
theorem computeTrajectoryFin_keeps_nonfinite_point :
    (computeTrajectoryFin isFinModel 100 12.5
      ⟨some 0.05, some 5, some 100, some 0⟩).points.length = 1 ∧
    (computeTrajectoryFin isFinModel 100 12.5
      ⟨some 0.05, some 5, some 100, some 0⟩).crossed = false ∧
    (computeTrajectoryFin isFinModel 100 12.5
      ⟨some 0.05, some 5, some 100, some 0⟩).escaped = false ∧
    (computeTrajectoryFin isFinModel 100 12.5
      ⟨some 0.05, some 5, some 100, some 0⟩).points.Forall
      fun p => isFinModel p.r = false ∧ isFinModel p.phi = false := by
  have hH : escapeHeuristic [⟨99.975, 1 / 2000, false, false, false⟩] 5 false = false := by
    simp [escapeHeuristic]
  simp only [computeTrajectoryFin, Option.getD_some]
  rw [c4_loop_eval]
  dsimp only
  rw [hH]
  refine ⟨rfl, rfl, rfl, ?_⟩
  refine (list_forall_map _ _ _).mpr ?_
  refine (List.forall_cons _ _ _).mpr ⟨⟨?_, ?_⟩, trivial⟩
  · show isFinModel (99.975 : ℝ) = false
    simp only [isFinModel]
    norm_num
  · show isFinModel (1 / 2000 : ℝ) = false
    simp only [isFinModel]
    norm_num

/-- Witness for C4's amended theorem at the concrete diverging run. -/
theorem computeTrajectoryFin_nonfinite_break_witness :
    (∃ p, (computeTrajectoryFin isFinModel 100 12.5
        ⟨some 0.05, some 5, some 100, some 0⟩).points.getLast? = some p ∧
      (isFinModel p.r = false ∨ isFinModel p.phi = false)) ∧
    (computeTrajectoryFin isFinModel 100 12.5
      ⟨some 0.05, some 5, some 100, some 0⟩).points.Forall
      fun p => p.crossed = false ∧ p.escaped = false :=
  computeTrajectoryFin_nonfinite_break isFinModel 100 12.5
    ⟨some 0.05, some 5, some 100, some 0⟩
    (by simp only [computeTrajectoryFin, Option.getD_some]
        rw [c4_loop_eval])
    (by simp only [computeTrajectoryFin, Option.getD_some]
        rw [c4_loop_eval]
        simp [escapeHeuristic])
    (by simp only [computeTrajectoryFin, Option.getD_some]
        rw [c4_loop_eval]
        simp)

/-! ### C8: the 3D transform preserves the radius -/

/-- Radius invariant of the integrator as called by `buildRays`
(`dλ = 0.05`, `rEscape = 150`, `rHorizonLimit = 2.01·M`): for any mass at
least `1/40` — amply covering the application's documented mass range
`[0.5, 2.5]` — every pushed radius stays nonnegative, because an infalling
step shrinks `r` by at most `0.05·√F ≤ 0.05 < 2.01·M`. -/
lemma loop_points_nonneg {isFin : ℝ → Bool} {b mass : ℝ} (hm : 1 / 40 ≤ mass) :
    ∀ {fuel : ℕ} {r phi : ℝ} {c e t : Bool} {pd : ℝ}, 0 ≤ r →
      (integrationLoop isFin b mass 0.05 150 (2.01 * mass) fuel r phi c e t pd).points.Forall
        fun p => 0 ≤ p.r := by
  intro fuel
  induction fuel with
  | zero =>
    intro r phi c e t pd hr
    rw [loop_zero_eq]
    trivial
  | succ n ih =>
    intro r phi c e t pd hr
    by_cases h1 : r > 150
    · rw [loop_escape_eq _ _ _ _ _ _ _ _ _ _ _ _ _ h1]
      exact (List.forall_cons _ _ _).mpr ⟨hr, trivial⟩
    · by_cases h2 : r < 2.01 * mass
      · rw [loop_cross_eq _ _ _ _ _ _ _ _ _ _ _ _ _ h1 h2]
        exact (List.forall_cons _ _ _).mpr ⟨hr, trivial⟩
      · by_cases h3 : Fdisc b mass r < 0
        · rw [loop_turn_eq _ _ _ _ _ _ _ _ _ _ _ _ _ h1 h2 h3]
          refine (List.forall_cons _ _ _).mpr ⟨hr, ?_⟩
          apply ih
          have hs := Real.sqrt_nonneg (max 0 (-Fdisc b mass r) + 1e-8)
          nlinarith
        · have hrh : 2.01 * mass ≤ r := not_lt.mp h2
          have hmpos : (0 : ℝ) < mass := lt_of_lt_of_le (by norm_num) hm
          have hrpos : (0 : ℝ) < r := lt_of_lt_of_le (by positivity) hrh
          have hf : 0 ≤ 1 - (2 * mass) / r := by
            rw [sub_nonneg, div_le_one hrpos]
            linarith
          have hF1 : Fdisc b mass r ≤ 1 := by
            simp only [Fdisc]
            have hterm : 0 ≤ (b * b * (1 - (2 * mass) / r)) / (r * r) :=
              div_nonneg (mul_nonneg (mul_self_nonneg b) hf) (mul_self_nonneg r)
            linarith
          have hsq1 : Real.sqrt (Fdisc b mass r) ≤ 1 := Real.sqrt_le_one.mpr hF1
          have hsq0 : 0 ≤ Real.sqrt (Fdisc b mass r) := Real.sqrt_nonneg _
          have hr2 : 0 ≤ r + drOf b mass r t * 0.05 := by
            rw [drOf]
            cases t with
            | false =>
              simp only [Bool.false_eq_true, if_false]
              nlinarith
            | true =>
              simp only [if_true]
              nlinarith
          by_cases h4 : isFin (r + drOf b mass r t * 0.05) = false
              ∨ isFin (phi + b / (r * r) * 0.05) = false
          · rw [loop_normBreak_eq _ _ _ _ _ _ _ _ _ _ _ _ _ h1 h2 h3 h4]
            exact (List.forall_cons _ _ _).mpr ⟨hr2, trivial⟩
          · rw [loop_normCons_eq _ _ _ _ _ _ _ _ _ _ _ _ _ h1 h2 h3 h4]
            exact (List.forall_cons _ _ _).mpr ⟨hr2, ih hr2⟩

/-- The three rotations of the spatial transform are orthonormal: the
squared distance from the origin of the transformed point equals `r²`, so
for nonnegative planar radius the distance equals `r` exactly. -/
lemma toPoint3D_radius (theta phiSphere psi : ℝ) (p : TrajPoint) (hr : 0 ≤ p.r) :
    Real.sqrt ((toPoint3D theta phiSphere psi p).x ^ 2
      + (toPoint3D theta phiSphere psi p).y ^ 2
      + (toPoint3D theta phiSphere psi p).z ^ 2) = p.r := by
  have h1 := Real.sin_sq_add_cos_sq psi
  have h2 := Real.sin_sq_add_cos_sq (theta - Real.pi / 2)
  have h3 := Real.sin_sq_add_cos_sq phiSphere
  have h4 := Real.sin_sq_add_cos_sq p.phi
  have key : (toPoint3D theta phiSphere psi p).x ^ 2
      + (toPoint3D theta phiSphere psi p).y ^ 2
      + (toPoint3D theta phiSphere psi p).z ^ 2 = p.r ^ 2 := by
    simp only [toPoint3D]
    linear_combination
      ((p.r * Real.cos p.phi * Real.cos (theta - Real.pi / 2)
          + p.r * Real.sin p.phi * Real.sin psi * Real.sin (theta - Real.pi / 2)) ^ 2
        + (p.r * Real.sin p.phi * Real.cos psi) ^ 2) * h3
      + ((p.r * Real.cos p.phi) ^ 2 + (p.r * Real.sin p.phi * Real.sin psi) ^ 2) * h2
      + (p.r * Real.sin p.phi) ^ 2 * h1
      + p.r ^ 2 * h4
  rw [key, Real.sqrt_sq hr]

/-- C8: for every ray of every ensemble (any distribution mode) and every
point of that ray, the 3D transform preserves the distance from the origin:
`sqrt(x² + y² + z²)` equals the planar radius `r` exactly (hence in
particular within the `1e-9` relative tolerance asked by the specification).
The hypothesis `1/40 ≤ M` keeps every integrated radius nonnegative and is
far weaker than the application's documented mass range `[0.5, 2.5]`. -/
theorem buildRays_transform_preserves_radius (b mass : ℝ) (count seed : ℕ)
    (dm : DistributionMode) (im : ImpactMode) (hm : 1 / 40 ≤ mass) :
    (buildRays b mass count seed dm im).Forall fun ray =>
      ray.points.Forall fun p => Real.sqrt (p.x ^ 2 + p.y ^ 2 + p.z ^ 2) = p.r := by
  apply buildRaysAux_forall
  intro i st
  simp only [buildRay]
  refine (list_forall_map _ _ _).mpr ?_
  have hnn : (computeTrajectory
      (sampleImpact im b mass (sampleOrientation dm i count st).rng).currentB mass
      ⟨some 0.05, some 6000, some 100, some 0⟩).points.Forall fun p => 0 ≤ p.r := by
    simp only [computeTrajectory, computeTrajectoryFin, Option.getD_some]
    refine (list_forall_map _ _ _).mpr ?_
    exact (loop_points_nonneg hm (by norm_num : (0 : ℝ) ≤ 100)).imp fun p hp => hp
  exact hnn.imp fun p hp => toPoint3D_radius _ _ _ p hp

/-- Witness for C8 at `M = 1` with a small beam ensemble. -/
theorem buildRays_transform_preserves_radius_witness :
    (buildRays 4 1 3 42 DistributionMode.beam ImpactMode.fixed).Forall fun ray =>
      ray.points.Forall fun p => Real.sqrt (p.x ^ 2 + p.y ^ 2 + p.z ^ 2) = p.r :=
  buildRays_transform_preserves_radius 4 1 3 42 DistributionMode.beam ImpactMode.fixed
    (by norm_num)

end

end Schwarzschild
